import Mathlib

/-!
Verification of the tool-directory resolution and shell-rendering layers of
the dbrownell_ToolsDirectory repository, as a shallow embedding in Lean.

Paths are modelled as lists of components; a directory tree is an inductive
value whose children appear in directory-listing order.  Fallible Python code
(functions that raise ValueError) is modelled with Except String.
-/

namespace ToolsDirectory

/-- Semantic version triple, the contract of the external SemanticVersionParser
collaborator (spec section 2 item 2 and section 3): a totally ordered
(major, minor, patch) triple.  Prerelease/build components never arise from
directory names handled by this repository and are not modelled. -/
structure SemVer where
  major : Nat
  minor : Nat
  patch : Nat
deriving DecidableEq, Repr

/-- Total order on versions: lexicographic on (major, minor, patch). -/
def verLe (a b : SemVer) : Bool :=
  decide (a.major < b.major ∨
    (a.major = b.major ∧ (a.minor < b.minor ∨ (a.minor = b.minor ∧ a.patch ≤ b.patch))))

/-- Rendering of a version, matching str(Version(major, minor, patch)). -/
def verToString (v : SemVer) : String :=
  Nat.repr v.major ++ "." ++ Nat.repr v.minor ++ "." ++ Nat.repr v.patch

/-- Numeric value of a nonempty all-digit character list. -/
def digitsToNat (l : List Char) : Nat :=
  l.foldl (fun a c => a * 10 + (c.toNat - 48)) 0

/-- Parse one dot-separated component: nonempty and all digits. -/
def parseNumericComponent (l : List Char) : Option Nat :=
  if l ≠ [] ∧ l.all Char.isDigit then some (digitsToNat l) else none

/-- Split a character list on the dot character. -/
def splitOnDot : List Char → List (List Char)
  | [] => [[]]
  | c :: cs =>
    if c = '.' then [] :: splitOnDot cs
    else
      match splitOnDot cs with
      | [] => [[c]]
      | p :: ps => (c :: p) :: ps

/-- Modelled from the spec: SemanticVersionParser (external collaborator,
spec sections 2 and 3) parses a fragment into a 3-part version, tolerant of
partial versions (2 becomes 2.0.0, 1.5 becomes 1.5.0); non-numeric fragments
fail coercion. -/
def parseVersionChars (l : List Char) : Option SemVer :=
  match splitOnDot l with
  | [a] =>
    (parseNumericComponent a).map (fun x => ⟨x, 0, 0⟩)
  | [a, b] =>
    match parseNumericComponent a, parseNumericComponent b with
    | some x, some y => some ⟨x, y, 0⟩
    | _, _ => none
  | [a, b, c] =>
    match parseNumericComponent a, parseNumericComponent b, parseNumericComponent c with
    | some x, some y, some z => some ⟨x, y, z⟩
    | _, _, _ => none
  | _ => none

/-- The removal of one optional leading letter v, as in
potential_dir.name.removeprefix applied with the string v. -/
def stripLeadingV : List Char → List Char
  | [] => []
  | c :: cs => if c = 'v' then cs else c :: cs

/-- Coercion of a directory name to a version, as in GenerateVersionedDirs:
strip an optional leading v, then coerce. -/
def coerceDirName (name : String) : Option SemVer :=
  parseVersionChars (stripLeadingV name.data)

/-- A filesystem entry: a directory with its children in listing order, or a
plain file. -/
inductive FSEntry where
  | dir : String → List FSEntry → FSEntry
  | file : String → FSEntry

/-- A directory under scrutiny: its absolute path (as components) and its
entries in listing order. -/
structure Dir where
  path : List String
  entries : List FSEntry

/-- Rendering of a path for error messages. -/
def pathToString (p : List String) : String :=
  String.intercalate "/" p

/-- The name of a directory: its last path component. -/
def Dir.name (d : Dir) : String :=
  d.path.getLastD ""

/-- Children of a directory that are themselves directories, with their names,
in listing order; plain files are skipped (the is_dir check). -/
def childDirs (d : Dir) : List (String × List FSEntry) :=
  d.entries.filterMap fun e =>
    match e with
    | FSEntry.dir n cs => some (n, cs)
    | FSEntry.file _ => none

/-- Python dict lookup semantics for a dict built from an association list:
the value of the last binding for the key, if any. -/
def lookupLast {α β : Type} [DecidableEq α] (k : α) : List (α × β) → Option β
  | [] => none
  | x :: xs =>
    match lookupLast k xs with
    | some v => some v
    | none => if x.1 = k then some x.2 else none

/-- The version-coercible child directories of a working directory, as
(version, directory) pairs in listing order, as built by the loop at the top
of GenerateVersionedDirs. -/
def versionedInfos (workingDir : Dir) : List (SemVer × Dir) :=
  (childDirs workingDir).filterMap fun c =>
    (coerceDirName c.1).map fun v => (v, ⟨workingDir.path ++ [c.1], c.2⟩)

/-- One step of the stable descending insertion modelling the Python sort with
key x.1 and reverse order. -/
def insertVersioned (x : SemVer × Dir) : List (SemVer × Dir) → List (SemVer × Dir)
  | [] => [x]
  | y :: ys => if verLe y.1 x.1 then x :: y :: ys else y :: insertVersioned x ys

/-- Stable sort by version, descending, as versioned_infos.sort with reverse
set and key x.1. -/
def sortVersionedDesc : List (SemVer × Dir) → List (SemVer × Dir)
  | [] => []
  | x :: xs => insertVersioned x (sortVersionedDesc xs)

/-- Version filter: the sentinel latest, or a pinned version. -/
inductive VersionFilter where
  | latest : VersionFilter
  | exact : SemVer → VersionFilter
deriving DecidableEq

/-- The ValueError message raised when a requested version has no directory. -/
def versionNotFoundMessage (toolName : String) (v : SemVer) (workingDir : Dir) : String :=
  "No directory found for version \x27" ++ verToString v ++ "\x27 for the tool \x27"
    ++ toolName ++ "\x27 in \x27" ++ pathToString workingDir.path ++ "\x27."

/-- The version level of resolution, embedding GenerateVersionedDirs: collect
version-coercible subdirectories; if none, the working directory itself is the
output with version absent; otherwise sort descending and either select by the
filter (raising when a pinned version is missing) or fan out over every
version in descending order. -/
def GenerateVersionedDirs (toolName : String) (workingDir : Dir)
    (dirFilter : Option VersionFilter) : Except String (List (Dir × Option SemVer)) :=
  let infos := versionedInfos workingDir
  match infos with
  | [] => Except.ok [(workingDir, none)]
  | i0 :: irest =>
    let sorted := sortVersionedDesc (i0 :: irest)
    match dirFilter with
    | none => Except.ok (sorted.map fun p => (p.2, some p.1))
    | some f =>
      let desired :=
        match f with
        | VersionFilter.exact v => v
        | VersionFilter.latest => (sorted.headD i0).1
      match lookupLast desired sorted with
      | some d => Except.ok [(d, some desired)]
      | none => Except.error (versionNotFoundMessage toolName desired workingDir)

/-- The operating-system enumeration. -/
inductive OperatingSystemType where
  | Linux : OperatingSystemType
  | MacOS : OperatingSystemType
  | Windows : OperatingSystemType
deriving DecidableEq

/-- The name of an operating-system enumeration member. -/
def osName : OperatingSystemType → String
  | OperatingSystemType.Linux => "Linux"
  | OperatingSystemType.MacOS => "MacOS"
  | OperatingSystemType.Windows => "Windows"

/-- An operating-system value as stored on a resolved tool: a concrete kind or
the Generic sentinel (the Literal Generic in the source). -/
inductive OSValue where
  | concrete : OperatingSystemType → OSValue
  | generic : OSValue
deriving DecidableEq

/-- OperatingSystemType.StringMap as a lookup: every member name maps to its
member, and Generic maps to the sentinel. -/
def mapOSName (s : String) : Option OSValue :=
  if s = "Linux" then some (OSValue.concrete OperatingSystemType.Linux)
  else if s = "MacOS" then some (OSValue.concrete OperatingSystemType.MacOS)
  else if s = "Windows" then some (OSValue.concrete OperatingSystemType.Windows)
  else if s = "Generic" then some OSValue.generic
  else none

/-- The architecture enumeration. -/
inductive ArchitectureType where
  | x64 : ArchitectureType
  | x86 : ArchitectureType
  | ARM64 : ArchitectureType
  | ARM : ArchitectureType
deriving DecidableEq

/-- The name of an architecture enumeration member. -/
def archName : ArchitectureType → String
  | ArchitectureType.x64 => "x64"
  | ArchitectureType.x86 => "x86"
  | ArchitectureType.ARM64 => "ARM64"
  | ArchitectureType.ARM => "ARM"

/-- An architecture value as stored on a resolved tool: a concrete kind or the
Generic sentinel. -/
inductive ArchValue where
  | concrete : ArchitectureType → ArchValue
  | generic : ArchValue
deriving DecidableEq

/-- ArchitectureType.StringMap as a lookup. -/
def mapArchName (s : String) : Option ArchValue :=
  if s = "x64" then some (ArchValue.concrete ArchitectureType.x64)
  else if s = "x86" then some (ArchValue.concrete ArchitectureType.x86)
  else if s = "ARM64" then some (ArchValue.concrete ArchitectureType.ARM64)
  else if s = "ARM" then some (ArchValue.concrete ArchitectureType.ARM)
  else if s = "Generic" then some ArchValue.generic
  else none

/-- The ValueError message raised when a requested OS or architecture kind has
no directory. -/
def noDirectoryFoundMessage (kindName toolName : String) (workingDir : Dir) : String :=
  "No directory found for \x27" ++ kindName ++ "\x27 for the tool \x27" ++ toolName
    ++ "\x27 in \x27" ++ pathToString workingDir.path ++ "\x27."

/-- The recognized OS subdirectories of a working directory, keyed by name, in
listing order, as built by the loop of GenerateOperatingSystemDirs. -/
def osInfos (workingDir : Dir) : List (String × Dir × OSValue) :=
  (childDirs workingDir).filterMap fun c =>
    (mapOSName c.1).map fun t => (c.1, ⟨workingDir.path ++ [c.1], c.2⟩, t)

/-- The OS level of resolution, embedding GenerateOperatingSystemDirs: if no
recognized OS subdirectory exists, the working directory itself is the output
with operating system absent; with a filter, try the exact kind, then fall
back to Generic when permitted, else raise; with no filter, fan out over
every recognized OS subdirectory. -/
def GenerateOperatingSystemDirs (toolName : String) (workingDir : Dir)
    (dirFilter : Option OperatingSystemType) (allowGenericOperatingSystem : Bool) :
    Except String (List (Dir × Option OSValue)) :=
  let infos := osInfos workingDir
  match infos with
  | [] => Except.ok [(workingDir, none)]
  | _ :: _ =>
    match dirFilter with
    | none => Except.ok (infos.map fun p => (p.2.1, some p.2.2))
    | some f =>
      match lookupLast (osName f) infos with
      | some info => Except.ok [(info.1, some info.2)]
      | none =>
        if allowGenericOperatingSystem then
          match lookupLast "Generic" infos with
          | some info => Except.ok [(info.1, some info.2)]
          | none => Except.error (noDirectoryFoundMessage (osName f) toolName workingDir)
        else Except.error (noDirectoryFoundMessage (osName f) toolName workingDir)

/-- The recognized architecture subdirectories of a working directory, keyed
by name, in listing order. -/
def archInfos (workingDir : Dir) : List (String × Dir × ArchValue) :=
  (childDirs workingDir).filterMap fun c =>
    (mapArchName c.1).map fun t => (c.1, ⟨workingDir.path ++ [c.1], c.2⟩, t)

/-- The architecture level of resolution, embedding GenerateArchitectureDirs;
identical structure to the OS level. -/
def GenerateArchitectureDirs (toolName : String) (workingDir : Dir)
    (dirFilter : Option ArchitectureType) (allowGenericArchitecture : Bool) :
    Except String (List (Dir × Option ArchValue)) :=
  let infos := archInfos workingDir
  match infos with
  | [] => Except.ok [(workingDir, none)]
  | _ :: _ =>
    match dirFilter with
    | none => Except.ok (infos.map fun p => (p.2.1, some p.2.2))
    | some f =>
      match lookupLast (archName f) infos with
      | some info => Except.ok [(info.1, some info.2)]
      | none =>
        if allowGenericArchitecture then
          match lookupLast "Generic" infos with
          | some info => Except.ok [(info.1, some info.2)]
          | none => Except.error (noDirectoryFoundMessage (archName f) toolName workingDir)
        else Except.error (noDirectoryFoundMessage (archName f) toolName workingDir)

/-- Information about one resolved tool configuration, embedding the ToolInfo
dataclass; paths are component lists. -/
structure ToolInfo where
  name : String
  version : Option SemVer
  operating_system : Option OSValue
  architecture : Option ArchValue
  root_directory : List String
  versioned_directory : List String
  binary_directory : List String
deriving DecidableEq

/-- Sequential flat-map over an Except-producing generator stage: consuming a
Python generator with list aborts on the first raised error, so prior yields
are discarded. -/
def flatMapExcept {α β : Type} (l : List α) (f : α → Except String (List β)) :
    Except String (List β) :=
  match l with
  | [] => Except.ok []
  | x :: xs =>
    match f x with
    | Except.error e => Except.error e
    | Except.ok ys =>
      match flatMapExcept xs f with
      | Except.error e => Except.error e
      | Except.ok rest => Except.ok (ys ++ rest)

/-- The is_dir test for the potential bin subdirectory. -/
def hasBinSubdir (d : Dir) : Bool :=
  (childDirs d).any fun c => c.1 = "bin"

/-- Embedding of GenerateToolInfos: nest version, OS and architecture
resolution, then attach the binary directory (bin subdirectory when it exists,
else the fully resolved directory itself). -/
def GenerateToolInfos (toolDir : Dir) (versionFilter : Option VersionFilter)
    (operatingSystemFilter : Option OperatingSystemType)
    (architectureFilter : Option ArchitectureType)
    (allowGenericOperatingSystem allowGenericArchitecture : Bool) :
    Except String (List ToolInfo) :=
  let toolName := toolDir.name
  match GenerateVersionedDirs toolName toolDir versionFilter with
  | Except.error e => Except.error e
  | Except.ok versionedDirs =>
    flatMapExcept versionedDirs fun vd =>
      match GenerateOperatingSystemDirs toolName vd.1 operatingSystemFilter
          allowGenericOperatingSystem with
      | Except.error e => Except.error e
      | Except.ok osDirs =>
        flatMapExcept osDirs fun od =>
          match GenerateArchitectureDirs toolName od.1 architectureFilter
              allowGenericArchitecture with
          | Except.error e => Except.error e
          | Except.ok archDirs =>
            Except.ok (archDirs.map fun ad =>
              { name := toolName
                version := vd.2
                operating_system := od.2
                architecture := ad.2
                root_directory := toolDir.path
                versioned_directory := ad.1.path
                binary_directory :=
                  if hasBinSubdir ad.1 then ad.1.path ++ ["bin"] else ad.1.path })

/-- The error written when a tool yields no configurations. -/
def noValidConfigurationsMessage (toolName : String) (toolDir : Dir) : String :=
  "No valid configurations found for the tool \x27" ++ toolName ++ "\x27 in \x27"
    ++ pathToString toolDir.path ++ "\x27.\n"

/-- Embedding of the per-entry loop of GetAllToolInfos: skip files, apply
exclude then include name filters, resolve each surviving tool with the
pinned version or latest plus the concrete OS/architecture filters; a
ValueError or an empty result is recorded as an error message and processing
continues with the remaining entries.  The only fatal outcome (Except.error)
models the assertion that exactly one configuration is produced. -/
def GetAllToolInfosAux (toolsPath : List String) (includeTools excludeTools : List String)
    (toolVersions : List (String × SemVer)) (operatingSystem : OperatingSystemType)
    (architecture : ArchitectureType)
    (allowGenericOperatingSystems allowGenericArchitectures : Bool) :
    List FSEntry → Except String (List ToolInfo × List String)
  | [] => Except.ok ([], [])
  | e :: rest =>
    let next := GetAllToolInfosAux toolsPath includeTools excludeTools toolVersions
      operatingSystem architecture allowGenericOperatingSystems allowGenericArchitectures rest
    match e with
    | FSEntry.file _ => next
    | FSEntry.dir toolName children =>
      if excludeTools.contains toolName then next
      else if !includeTools.isEmpty && !includeTools.contains toolName then next
      else
        let toolDir : Dir := ⟨toolsPath ++ [toolName], children⟩
        let versionFilter : VersionFilter :=
          match lookupLast toolName toolVersions with
          | some v => VersionFilter.exact v
          | none => VersionFilter.latest
        match GenerateToolInfos toolDir (some versionFilter) (some operatingSystem)
            (some architecture) allowGenericOperatingSystems allowGenericArchitectures with
        | Except.error m =>
          match next with
          | Except.error e2 => Except.error e2
          | Except.ok (rs, es) => Except.ok (rs, m :: es)
        | Except.ok [] =>
          match next with
          | Except.error e2 => Except.error e2
          | Except.ok (rs, es) =>
            Except.ok (rs, noValidConfigurationsMessage toolName toolDir :: es)
        | Except.ok [info] =>
          match next with
          | Except.error e2 => Except.error e2
          | Except.ok (rs, es) => Except.ok (info :: rs, es)
        | Except.ok (_ :: _ :: _) =>
          Except.error "assertion failed: expected exactly one tool info"

/-- Embedding of GetAllToolInfos: process the immediate entries of the tools
directory, returning the resolved configurations together with the error
messages written to the diagnostic sink. -/
def GetAllToolInfos (toolsDirectory : Dir) (includeTools excludeTools : List String)
    (toolVersions : List (String × SemVer)) (operatingSystem : OperatingSystemType)
    (architecture : ArchitectureType)
    (allowGenericOperatingSystems allowGenericArchitectures : Bool) :
    Except String (List ToolInfo × List String) :=
  GetAllToolInfosAux toolsDirectory.path includeTools excludeTools toolVersions
    operatingSystem architecture allowGenericOperatingSystems allowGenericArchitectures
    toolsDirectory.entries

/-- The suffix token of an operating-system value (member name or Generic). -/
def osSuffix : OSValue → String
  | OSValue.concrete k => osName k
  | OSValue.generic => "Generic"

/-- The suffix token of an architecture value (member name or Generic). -/
def archSuffix : ArchValue → String
  | ArchValue.concrete k => archName k
  | ArchValue.generic => "Generic"

/-- ApplyVersionSuffixes: append the version suffix when a version is present. -/
def applyVersionSuffixes (version : Option SemVer) (suffixes : List String) : List String :=
  match version with
  | none => suffixes
  | some v => suffixes ++ ["-v" ++ verToString v]

/-- ApplyOperatingSystemSuffixes: append the OS suffix, then every combination
of an interior accumulated suffix (the Python slice from 1 to -1, taken after
the append) with the OS suffix. -/
def applyOperatingSystemSuffixes (os : Option OSValue) (suffixes : List String) : List String :=
  match os with
  | none => suffixes
  | some o =>
    let l1 := suffixes ++ ["-" ++ osSuffix o]
    l1 ++ ((l1.drop 1).dropLast.map fun p => p ++ "-" ++ osSuffix o)

/-- ApplyArchitectureSuffixes, identical in structure to the OS case. -/
def applyArchitectureSuffixes (arch : Option ArchValue) (suffixes : List String) : List String :=
  match arch with
  | none => suffixes
  | some a =>
    let l1 := suffixes ++ ["-" ++ archSuffix a]
    l1 ++ ((l1.drop 1).dropLast.map fun p => p ++ "-" ++ archSuffix a)

/-- Embedding of ToolInfo.GeneratePotentialEnvFiles.  The relative components
between root_directory and versioned_directory play the role of the
relative_paths list (the i-th parent is the first i relative components); the
offset bookkeeping mirrors the source, and List.take totalizes the indexing
that the source guards with an assertion on the number of levels. -/
def ToolInfo.GeneratePotentialEnvFiles (info : ToolInfo) (fileExtension : String) :
    List (List String) :=
  let rel := info.versioned_directory.drop info.root_directory.length
  let mkFiles := fun (offset : Nat) (suffixes : List String) =>
    suffixes.map fun s =>
      (info.root_directory ++ rel.take offset) ++ [info.name ++ s ++ fileExtension]
  let rootFiles := mkFiles 0
    (applyArchitectureSuffixes info.architecture
      (applyOperatingSystemSuffixes info.operating_system
        (applyVersionSuffixes info.version [""])))
  let offset1 := if info.version.isSome then 1 else 0
  let versionFiles :=
    if info.version.isSome then
      mkFiles offset1
        (applyArchitectureSuffixes info.architecture
          (applyOperatingSystemSuffixes info.operating_system [""]))
    else []
  let offset2 := offset1 + (if info.operating_system.isSome then 1 else 0)
  let osFiles :=
    if info.operating_system.isSome then
      mkFiles offset2 (applyArchitectureSuffixes info.architecture [""])
    else []
  let offset3 := offset2 + (if info.architecture.isSome then 1 else 0)
  let archFiles :=
    if info.architecture.isSome then mkFiles offset3 [""] else []
  rootFiles ++ versionFiles ++ osFiles ++ archFiles

/-- The relative-path substitution of CreateShellCommands: every occurrence of
a dot followed by a slash or backslash, not preceded by another dot (the
negative lookbehind), is replaced by the replacement characters; scanning
tracks the character preceding the current position in the original input. -/
def substituteRelAux (replacement : List Char) : Option Char → List Char → List Char
  | _, [] => []
  | _, [c] => [c]
  | prev, c :: s :: rest =>
    if c = '.' ∧ prev ≠ some '.' ∧ (s = '/' ∨ s = '\\') then
      replacement ++ substituteRelAux replacement (some s) rest
    else
      c :: substituteRelAux replacement (some c) (s :: rest)

/-- Embedding of the relative-path expansion applied to every env-file value:
the replacement is the env file directory rendered as a string followed by
the platform path separator. -/
def expandRelativePaths (envFileDirectory : String) (sep : Char) (value : String) : String :=
  String.mk (substituteRelAux (envFileDirectory.data ++ [sep]) none value.data)

/-- The left brace character, kept out of string literals. -/
def lbrace : Char := Char.ofNat 123

/-- The right brace character, kept out of string literals. -/
def rbrace : Char := Char.ofNat 125

/-- Minimal embedding of str.format with the single named field value: a
doubled brace becomes a literal brace, the field is replaced by the value
verbatim (the substituted text is not reprocessed), and any other character
passes through.  The templates built by the renderers contain no other
fields. -/
def formatValueAux (value : List Char) : List Char → List Char
  | [] => []
  | [c] => [c]
  | c :: 'v' :: 'a' :: 'l' :: 'u' :: 'e' :: c6 :: rest =>
    if c = lbrace ∧ c6 = rbrace then value ++ formatValueAux value rest
    else c :: formatValueAux value ('v' :: 'a' :: 'l' :: 'u' :: 'e' :: c6 :: rest)
  | c :: c2 :: rest =>
    if c = lbrace ∧ c2 = lbrace then lbrace :: formatValueAux value rest
    else if c = rbrace ∧ c2 = rbrace then rbrace :: formatValueAux value rest
    else c :: formatValueAux value (c2 :: rest)

/-- String-level wrapper for the single-field format embedding. -/
def formatValue (template value : String) : String :=
  String.mk (formatValueAux value.data template.data)

/-- The doubled-brace spelling of a shell variable expansion, as produced by
the f-string stage of OnAugment: a dollar sign, two left braces, the name,
two right braces. -/
def doubledVarRef (name : String) : String :=
  "$" ++ String.mk [lbrace, lbrace] ++ name ++ String.mk [rbrace, rbrace]

/-- The literal field text value inside braces, as written in the templates. -/
def valueField : String :=
  String.mk [lbrace] ++ "value" ++ String.mk [rbrace]

/-- The Python removesuffix of a single trailing newline followed by appending
one newline, shared by the Bash and PowerShell Raw renderers. -/
def normalizeTrailingNewline (s : String) : String :=
  String.mk ((if s.data.getLast? = some '\n' then s.data.dropLast else s.data) ++ ['\n'])

/-- A Set command payload: a single value, a list of values, or the absent
value None. -/
inductive SetValue where
  | one : String → SetValue
  | many : List String → SetValue
  | absent : SetValue
deriving DecidableEq

/-- Set.EnumValues: a single value yields itself, a list yields its elements,
None yields nothing. -/
def SetValue.EnumValues : SetValue → List String
  | SetValue.one s => [s]
  | SetValue.many l => l
  | SetValue.absent => []

/-- Python removeprefix of one double-quote character. -/
def stripLeadingQuote (s : String) : String :=
  if s.startsWith "\"" then s.drop 1 else s

/-- Python removesuffix of one double-quote character. -/
def stripTrailingQuote (s : String) : String :=
  if s.endsWith "\"" then s.dropRight 1 else s

namespace BashCommandVisitor

/-- Embedding of BashCommandVisitor.OnSet. -/
def OnSet (name : String) (value : SetValue) : String :=
  match value with
  | SetValue.absent => "unset " ++ name ++ "\n"
  | v =>
    let values := String.intercalate ":" v.EnumValues
    let values := stripTrailingQuote (stripLeadingQuote values)
    "export " ++ name ++ "=\"" ++ values ++ "\"\n"

/-- Embedding of BashCommandVisitor.OnAugment: build the guarded statement
template with doubled braces and the value field, apply it to every enumerated
value, join with newlines and append one. -/
def OnAugment (name : String) (values : List String) (appendValues : Bool) : String :=
  let addStatementTemplate :=
    if appendValues then valueField ++ ":" ++ doubledVarRef name
    else doubledVarRef name ++ ":" ++ valueField
  let addStatementTemplate := "export " ++ name ++ "=\"" ++ addStatementTemplate ++ "\""
  let statementTemplate :=
    "[[ \":" ++ doubledVarRef name ++ ":\" != *\":" ++ valueField ++ ":\"* ]] && "
      ++ addStatementTemplate
  String.intercalate "\n" (values.map fun v => formatValue statementTemplate v) ++ "\n"

/-- Embedding of BashCommandVisitor.OnRaw. -/
def OnRaw (value : String) : String :=
  normalizeTrailingNewline value

end BashCommandVisitor

namespace PowerShellCommandVisitor

/-- Embedding of PowerShellCommandVisitor.OnSet. -/
def OnSet (name : String) (value : SetValue) : String :=
  match value with
  | SetValue.absent => "Remove-Item Env:" ++ name ++ " -ErrorAction SilentlyContinue\n"
  | v =>
    let values := String.intercalate ";" v.EnumValues
    let values := stripTrailingQuote (stripLeadingQuote values)
    "$env:" ++ name ++ " = \"" ++ values ++ "\"\n"

/-- Embedding of PowerShellCommandVisitor.OnRaw. -/
def OnRaw (value : String) : String :=
  normalizeTrailingNewline value

end PowerShellCommandVisitor

namespace BatchCommandVisitor

/-- Embedding of BatchCommandVisitor.OnSet. -/
def OnSet (name : String) (value : SetValue) : String :=
  match value with
  | SetValue.absent => "SET " ++ name ++ "="
  | v => "SET " ++ name ++ "=" ++ String.intercalate ";" v.EnumValues

/-- Embedding of BatchCommandVisitor.OnRaw: the value is returned unchanged. -/
def OnRaw (value : String) : String :=
  value

end BatchCommandVisitor

/-! Helper lemmas about the version order, the descending sort, dict lookups
and the generator plumbing. -/

theorem verLe_refl (a : SemVer) : verLe a a = true := by
  simp [verLe]

theorem verLe_total (a b : SemVer) : verLe a b = true ∨ verLe b a = true := by
  simp only [verLe, decide_eq_true_eq]
  omega

theorem verLe_trans {a b c : SemVer} (h1 : verLe a b = true) (h2 : verLe b c = true) :
    verLe a c = true := by
  simp only [verLe, decide_eq_true_eq] at h1 h2 ⊢
  omega

theorem insertVersioned_perm (x : SemVer × Dir) (l : List (SemVer × Dir)) :
    List.Perm (insertVersioned x l) (x :: l) := by
  induction l with
  | nil => simp [insertVersioned]
  | cons y ys ih =>
    rw [insertVersioned]
    by_cases h : verLe y.1 x.1
    · rw [if_pos h]
    · rw [if_neg h]
      exact (ih.cons y).trans (List.Perm.swap x y ys)

theorem sortVersionedDesc_perm (l : List (SemVer × Dir)) :
    List.Perm (sortVersionedDesc l) l := by
  induction l with
  | nil => simp [sortVersionedDesc]
  | cons x xs ih =>
    rw [sortVersionedDesc]
    exact (insertVersioned_perm x (sortVersionedDesc xs)).trans (ih.cons x)

theorem insertVersioned_pairwise (x : SemVer × Dir) (l : List (SemVer × Dir))
    (hl : l.Pairwise fun a b => verLe b.1 a.1 = true) :
    (insertVersioned x l).Pairwise fun a b => verLe b.1 a.1 = true := by
  induction l with
  | nil => simp [insertVersioned]
  | cons y ys ih =>
    rcases List.pairwise_cons.mp hl with ⟨hy, hys⟩
    rw [insertVersioned]
    by_cases h : verLe y.1 x.1
    · rw [if_pos h]
      refine List.pairwise_cons.mpr ⟨?_, hl⟩
      intro z hz
      rcases List.mem_cons.mp hz with rfl | hz'
      · exact h
      · exact verLe_trans (hy z hz') h
    · rw [if_neg h]
      refine List.pairwise_cons.mpr ⟨?_, ih hys⟩
      intro z hz
      have hz' := (insertVersioned_perm x ys).mem_iff.mp hz
      rcases List.mem_cons.mp hz' with rfl | hz''
      · rcases verLe_total z.1 y.1 with h1 | h1
        · exact h1
        · exact absurd h1 h
      · exact hy z hz''

theorem sortVersionedDesc_pairwise (l : List (SemVer × Dir)) :
    (sortVersionedDesc l).Pairwise fun a b => verLe b.1 a.1 = true := by
  induction l with
  | nil => simp [sortVersionedDesc]
  | cons x xs ih => exact insertVersioned_pairwise x (sortVersionedDesc xs) ih

theorem lookupLast_mem {α β : Type} [DecidableEq α] {k : α} {l : List (α × β)} {v : β}
    (h : lookupLast k l = some v) : (k, v) ∈ l := by
  induction l with
  | nil => simp [lookupLast] at h
  | cons x xs ih =>
    rw [lookupLast] at h
    cases hx : lookupLast k xs with
    | some w =>
      rw [hx] at h
      simp only [Option.some.injEq] at h
      exact List.mem_cons_of_mem x (ih (hx.trans (congrArg some h)))
    | none =>
      rw [hx] at h
      by_cases he : x.1 = k
      · rw [if_pos he] at h
        simp only [Option.some.injEq] at h
        subst he
        subst h
        exact List.mem_cons_self x xs
      · rw [if_neg he] at h
        simp at h

theorem lookupLast_cons_self {α β : Type} [DecidableEq α] (x : α × β) (l : List (α × β)) :
    ∃ v, lookupLast x.1 (x :: l) = some v := by
  rw [lookupLast]
  cases hx : lookupLast x.1 l with
  | some w => exact ⟨w, rfl⟩
  | none => exact ⟨x.2, by rw [if_pos rfl]⟩

theorem flatMapExcept_mem {α β : Type} {l : List α} {f : α → Except String (List β)}
    {out : List β} (h : flatMapExcept l f = Except.ok out) :
    ∀ b ∈ out, ∃ a ∈ l, ∃ ys, f a = Except.ok ys ∧ b ∈ ys := by
  induction l generalizing out with
  | nil =>
    rw [flatMapExcept] at h
    intro b hb
    simp only [Except.ok.injEq] at h
    subst h
    simp at hb
  | cons x xs ih =>
    rw [flatMapExcept] at h
    intro b hb
    cases hfx : f x with
    | error e => rw [hfx] at h; simp at h
    | ok ys =>
      rw [hfx] at h
      cases hrest : flatMapExcept xs f with
      | error e => rw [hrest] at h; simp at h
      | ok rest =>
        rw [hrest] at h
        simp only [Except.ok.injEq] at h
        subst h
        rcases List.mem_append.mp hb with hb1 | hb2
        · exact ⟨x, List.mem_cons_self x xs, ys, hfx, hb1⟩
        · rcases ih hrest b hb2 with ⟨a, ha, zs, hfa, hbz⟩
          exact ⟨a, List.mem_cons_of_mem x ha, zs, hfa, hbz⟩

theorem flatMapExcept_singleton_ok {α β : Type} {a : α} {f : α → Except String (List β)}
    {ys : List β} (h : f a = Except.ok ys) : flatMapExcept [a] f = Except.ok ys := by
  rw [flatMapExcept, h, flatMapExcept]
  simp

theorem flatMapExcept_singleton_error {α β : Type} {a : α} {f : α → Except String (List β)}
    {e : String} (h : f a = Except.error e) : flatMapExcept [a] f = Except.error e := by
  rw [flatMapExcept, h]

/-- Strings with different first characters are different. -/
theorem ne_of_data_head {s t : String} (h : s.data.head? ≠ t.data.head?) : s ≠ t :=
  fun he => h (congrArg (fun u => u.data.head?) he)

/-- C9: the claim states that all three Raw renderers pass the text through
with its trailing newline normalized to exactly one newline.  The Bash and
PowerShell renderers do exactly that, but the Batch renderer returns the text
unchanged: Raw applied to a string without a trailing newline renders without
one, although the repository's own BatchCommandVisitor test asserts the
normalized output with the trailing newline. -/
theorem claimC9 :
    BatchCommandVisitor.OnRaw "This is a raw command" = "This is a raw command" ∧
    BatchCommandVisitor.OnRaw "This is a raw command" ≠ "This is a raw command\n" ∧
    BashCommandVisitor.OnRaw "This is a raw command" = "This is a raw command\n" ∧
    PowerShellCommandVisitor.OnRaw "This is a raw command" = "This is a raw command\n" := by
  refine ⟨rfl, ?_, by decide, by decide⟩
  decide

/-- C10: Set with an empty list of values (as opposed to the absent value)
renders as an assignment of the empty string in Bash and PowerShell, distinct
from their unset/remove forms; only the absent value produces the unset form;
the Batch rendering of the empty list coincides textually with its unset
form. -/
theorem claimC10 (name : String) :
    BashCommandVisitor.OnSet name (SetValue.many []) = "export " ++ name ++ "=\"\"\n" ∧
    PowerShellCommandVisitor.OnSet name (SetValue.many []) = "$env:" ++ name ++ " = \"\"\n" ∧
    BashCommandVisitor.OnSet name (SetValue.many []) ≠ BashCommandVisitor.OnSet name SetValue.absent ∧
    PowerShellCommandVisitor.OnSet name (SetValue.many [])
      ≠ PowerShellCommandVisitor.OnSet name SetValue.absent ∧
    BatchCommandVisitor.OnSet name (SetValue.many []) = BatchCommandVisitor.OnSet name SetValue.absent ∧
    (∀ v : SetValue, v ≠ SetValue.absent →
      ∃ r, BashCommandVisitor.OnSet name v = "export " ++ name ++ "=\"" ++ r ++ "\"\n") ∧
    (∀ v : SetValue, v ≠ SetValue.absent →
      ∃ r, PowerShellCommandVisitor.OnSet name v = "$env:" ++ name ++ " = \"" ++ r ++ "\"\n") := by
  have hbash : BashCommandVisitor.OnSet name (SetValue.many [])
      = "export " ++ name ++ "=\"\"\n" := by
    show "export " ++ name ++ "=\"" ++ "" ++ "\"\n" = "export " ++ name ++ "=\"\"\n"
    rw [String.append_empty, String.append_assoc]
    rfl
  have hps : PowerShellCommandVisitor.OnSet name (SetValue.many [])
      = "$env:" ++ name ++ " = \"\"\n" := by
    show "$env:" ++ name ++ " = \"" ++ "" ++ "\"\n" = "$env:" ++ name ++ " = \"\"\n"
    rw [String.append_empty, String.append_assoc]
    rfl
  have hbatch : BatchCommandVisitor.OnSet name (SetValue.many [])
      = BatchCommandVisitor.OnSet name SetValue.absent := by
    show "SET " ++ name ++ "=" ++ String.intercalate ";" ([] : List String) = "SET " ++ name ++ "="
    rw [show String.intercalate ";" ([] : List String) = "" from rfl, String.append_empty]
  refine ⟨hbash, hps, ?_, ?_, hbatch, ?_, ?_⟩
  · rw [hbash]
    show "export " ++ name ++ "=\"\"\n" ≠ "unset " ++ name ++ "\n"
    apply ne_of_data_head
    simp only [String.data_append]
    simp
  · rw [hps]
    show "$env:" ++ name ++ " = \"\"\n" ≠ "Remove-Item Env:" ++ name ++ " -ErrorAction SilentlyContinue\n"
    apply ne_of_data_head
    simp only [String.data_append]
    simp
  · intro v hv
    cases v with
    | one s => exact ⟨_, rfl⟩
    | many l => exact ⟨_, rfl⟩
    | absent => exact absurd rfl hv
  · intro v hv
    cases v with
    | one s => exact ⟨_, rfl⟩
    | many l => exact ⟨_, rfl⟩
    | absent => exact absurd rfl hv

/-- Witness for C10 at the concrete variable NAME and the concrete non-absent
value /x. -/
theorem claimC10_witness :
    BashCommandVisitor.OnSet "NAME" (SetValue.many []) = "export NAME=\"\"\n" ∧
    (∃ r, BashCommandVisitor.OnSet "NAME" (SetValue.one "/x")
      = "export " ++ "NAME" ++ "=\"" ++ r ++ "\"\n") := by
  refine ⟨?_, (claimC10 "NAME").2.2.2.2.2.1 (SetValue.one "/x") (by decide)⟩
  rw [(claimC10 "NAME").1]
  rfl

/-- C3: for a ToolInfo whose version, operating system and architecture are
all present, GeneratePotentialEnvFiles yields exactly 15 candidate files: 8
at the root tier in the order bare, version, OS, version+OS, architecture,
version+architecture, OS+architecture, version+OS+architecture; then 4 at the
version tier; then 2 at the OS tier; then 1 at the architecture tier. -/
theorem claimC3 (name : String) (v : SemVer) (o : OSValue) (a : ArchValue)
    (root bin : List String) (d1 d2 d3 : String) :
    ToolInfo.GeneratePotentialEnvFiles
      { name := name, version := some v, operating_system := some o,
        architecture := some a, root_directory := root,
        versioned_directory := root ++ [d1, d2, d3], binary_directory := bin }
      ".env" =
    [root ++ [name ++ ".env"],
     root ++ [name ++ "-v" ++ verToString v ++ ".env"],
     root ++ [name ++ "-" ++ osSuffix o ++ ".env"],
     root ++ [name ++ "-v" ++ verToString v ++ "-" ++ osSuffix o ++ ".env"],
     root ++ [name ++ "-" ++ archSuffix a ++ ".env"],
     root ++ [name ++ "-v" ++ verToString v ++ "-" ++ archSuffix a ++ ".env"],
     root ++ [name ++ "-" ++ osSuffix o ++ "-" ++ archSuffix a ++ ".env"],
     root ++ [name ++ "-v" ++ verToString v ++ "-" ++ osSuffix o ++ "-" ++ archSuffix a ++ ".env"],
     root ++ [d1] ++ [name ++ ".env"],
     root ++ [d1] ++ [name ++ "-" ++ osSuffix o ++ ".env"],
     root ++ [d1] ++ [name ++ "-" ++ archSuffix a ++ ".env"],
     root ++ [d1] ++ [name ++ "-" ++ osSuffix o ++ "-" ++ archSuffix a ++ ".env"],
     root ++ [d1, d2] ++ [name ++ ".env"],
     root ++ [d1, d2] ++ [name ++ "-" ++ archSuffix a ++ ".env"],
     root ++ [d1, d2, d3] ++ [name ++ ".env"]] := by
  simp only [ToolInfo.GeneratePotentialEnvFiles, applyVersionSuffixes,
    applyOperatingSystemSuffixes, applyArchitectureSuffixes, List.drop_left,
    Option.isSome_some, if_true]
  simp [String.append_assoc, List.append_assoc, String.empty_append]

/-- Every OS-info entry carries the value its directory name maps to. -/
theorem osInfos_mapped {w : Dir} {n : String} {d : Dir} {t : OSValue}
    (h : (n, d, t) ∈ osInfos w) : mapOSName n = some t := by
  rcases List.mem_filterMap.mp h with ⟨c, _, hc⟩
  rcases Option.map_eq_some'.mp hc with ⟨t0, ht0, heq⟩
  have hn : c.1 = n := congrArg Prod.fst heq
  have ht : t0 = t := congrArg (fun p => p.2.2) heq
  rw [← hn, ht0, ht]

/-- C4: with an OS filter and generic fallback enabled, a tool directory whose
OS level has a Generic subdirectory but no subdirectory of the requested kind
resolves to the Generic subdirectory with the Generic sentinel as the
operating system (neither absent nor the requested kind); when an exact match
for the requested kind exists it is selected instead of the fallback. -/
theorem claimC4 (toolName : String) (w : Dir) (f : OperatingSystemType)
    (d : Dir) (val : OSValue) :
    (lookupLast (osName f) (osInfos w) = none →
      lookupLast "Generic" (osInfos w) = some (d, val) →
      GenerateOperatingSystemDirs toolName w (some f) true
        = Except.ok [(d, some OSValue.generic)]) ∧
    (lookupLast (osName f) (osInfos w) = some (d, val) →
      GenerateOperatingSystemDirs toolName w (some f) true
        = Except.ok [(d, some val)]) := by
  constructor
  · intro h1 h2
    have hval : val = OSValue.generic := by
      have hm := osInfos_mapped (lookupLast_mem h2)
      have : some OSValue.generic = some val := by rw [← hm]; rfl
      exact (Option.some.injEq _ _ ▸ this).symm
    subst hval
    cases hinfos : osInfos w with
    | nil => rw [hinfos] at h2; simp [lookupLast] at h2
    | cons i0 irest =>
      rw [GenerateOperatingSystemDirs]
      simp only [hinfos] at h1 h2 ⊢
      rw [h1]
      simp [h2]
  · intro h1
    cases hinfos : osInfos w with
    | nil => rw [hinfos] at h1; simp [lookupLast] at h1
    | cons i0 irest =>
      rw [GenerateOperatingSystemDirs]
      simp only [hinfos] at h1 ⊢
      rw [h1]

/-- Witness for C4 at a concrete tool directory that carries only a Generic
OS subdirectory, requested with the Linux filter. -/
theorem claimC4_witness :
    GenerateOperatingSystemDirs "T" ⟨["Tools", "T"], [FSEntry.dir "Generic" []]⟩
      (some OperatingSystemType.Linux) true
      = Except.ok [(⟨["Tools", "T", "Generic"], []⟩, some OSValue.generic)] :=
  (claimC4 "T" ⟨["Tools", "T"], [FSEntry.dir "Generic" []]⟩ OperatingSystemType.Linux
    ⟨["Tools", "T", "Generic"], []⟩ OSValue.generic).1 rfl rfl

/-- Test for an occurrence of a dot immediately followed by a slash or a
backslash anywhere in a character list. -/
def hasDotSlash : List Char → Bool
  | [] => false
  | [_] => false
  | a :: b :: rest => (decide (a = '.' ∧ (b = '/' ∨ b = '\\'))) || hasDotSlash (b :: rest)

/-- The substitution leaves a character list without any dot-slash occurrence
unchanged, whatever the preceding character was. -/
theorem substituteRelAux_no_match (repl : List Char) :
    ∀ l : List Char, hasDotSlash l = false → ∀ prev, substituteRelAux repl prev l = l := by
  intro l
  induction l with
  | nil => intro _ _; rfl
  | cons c cs ih =>
    intro h prev
    cases cs with
    | nil => rfl
    | cons s r =>
      rw [hasDotSlash] at h
      rcases Bool.or_eq_false_iff.mp h with ⟨hhead, htail⟩
      rw [substituteRelAux, if_neg]
      · rw [ih htail (some c)]
      · intro hcond
        rcases hcond with ⟨hc, _, hs⟩
        exact absurd (decide_eq_true (And.intro hc hs)) (by rw [hhead]; intro hk; cases hk)

/-- A list headed by a character other than the dot has a dot-slash occurrence
only if its tail does. -/
theorem hasDotSlash_cons_of_ne {a : Char} (ha : a ≠ '.') {l : List Char}
    (h : hasDotSlash l = false) : hasDotSlash (a :: l) = false := by
  cases l with
  | nil => rfl
  | cons b r =>
    rw [hasDotSlash, h, Bool.or_false]
    simp [ha]

/-- C7: a value beginning with an unescaped dot-slash (or dot-backslash) is
rewritten so that the leading occurrence becomes the env-file directory plus
the path separator, while a value beginning with the parentreference
dot-dot-slash is left untouched. -/
theorem claimC7 (envDir : String) (sep : Char) (sl : Char) (rest : List Char)
    (hsl : sl = '/' ∨ sl = '\\') (hrest : hasDotSlash rest = false) :
    expandRelativePaths envDir sep (String.mk ('.' :: sl :: rest))
      = String.mk (envDir.data ++ [sep] ++ rest) ∧
    expandRelativePaths envDir sep (String.mk ('.' :: '.' :: sl :: rest))
      = String.mk ('.' :: '.' :: sl :: rest) := by
  have hslne : sl ≠ '.' := by
    rcases hsl with rfl | rfl
    · intro hk; cases hk
    · intro hk; cases hk
  constructor
  · rw [expandRelativePaths]
    rw [show ((String.mk ('.' :: sl :: rest)).data) = '.' :: sl :: rest from rfl]
    rw [substituteRelAux, if_pos ⟨rfl, by simp, hsl⟩]
    rw [substituteRelAux_no_match _ rest hrest (some sl)]
  · rw [expandRelativePaths]
    rw [show ((String.mk ('.' :: '.' :: sl :: rest)).data) = '.' :: '.' :: sl :: rest from rfl]
    rw [substituteRelAux, if_neg]
    · rw [substituteRelAux, if_neg]
      · rw [substituteRelAux_no_match _ (sl :: rest) (hasDotSlash_cons_of_ne hslne hrest) (some '.')]
      · intro hcond
        exact absurd hcond.2.1 (by simp)
    · intro hcond
      rcases hcond with ⟨-, -, hs⟩
      rcases hs with hk | hk
      · cases hk
      · cases hk

/-- Witness for C7: the docstring example, the value dot-slash-bin in an env
file living in /tools/Tool1 expands to /tools/Tool1/bin, while
dot-dot-slash-bin is untouched. -/
theorem claimC7_witness :
    expandRelativePaths "/tools/Tool1" '/' (String.mk ('.' :: '/' :: "bin".data))
      = "/tools/Tool1/bin" ∧
    expandRelativePaths "/tools/Tool1" '/' (String.mk ('.' :: '.' :: '/' :: "bin".data))
      = String.mk ('.' :: '.' :: '/' :: "bin".data) := by
  have h := claimC7 "/tools/Tool1" '/' '/' "bin".data (Or.inl rfl) (by decide)
  exact ⟨h.1.trans (by decide), h.2⟩

/-- One plain character (not a brace) passes through the format scan. -/
theorem fmt_plain_cons (vd : List Char) (c : Char) (hc1 : c ≠ lbrace) (hc2 : c ≠ rbrace)
    (l : List Char) : formatValueAux vd (c :: l) = c :: formatValueAux vd l := by
  rw [formatValueAux.eq_def]
  split
  · rename_i heq
    exact absurd heq (by simp)
  · rename_i c' heq
    injection heq with h1 h2
    subst h1
    subst h2
    rfl
  · rename_i c' c6 rest heq
    injection heq with h1 h2
    subst h1
    subst h2
    rw [if_neg (fun h => hc1 h.1)]
  · rename_i c' c2 rest hno1 hno2 heq
    injection heq with h1 h2
    subst h1
    subst h2
    rw [if_neg (fun h => hc1 h.1), if_neg (fun h => hc2 h.1)]

/-- A doubled left brace renders one literal left brace. -/
theorem fmt_open (vd l : List Char) :
    formatValueAux vd (lbrace :: lbrace :: l) = lbrace :: formatValueAux vd l := rfl

/-- A doubled right brace renders one literal right brace. -/
theorem fmt_close (vd l : List Char) :
    formatValueAux vd (rbrace :: rbrace :: l) = rbrace :: formatValueAux vd l := rfl

/-- The value field is replaced by the value, not reprocessed. -/
theorem fmt_field (vd l : List Char) :
    formatValueAux vd (lbrace :: 'v' :: 'a' :: 'l' :: 'u' :: 'e' :: rbrace :: l)
      = vd ++ formatValueAux vd l := rfl

/-- The empty template renders empty. -/
theorem fmt_nil (vd : List Char) : formatValueAux vd [] = [] := rfl

/-- A brace-free segment passes through the format scan. -/
theorem fmt_braceFree_append (vd : List Char) :
    ∀ p : List Char, (∀ c ∈ p, c ≠ lbrace ∧ c ≠ rbrace) →
      ∀ l, formatValueAux vd (p ++ l) = p ++ formatValueAux vd l := by
  intro p
  induction p with
  | nil => intro _ l; rfl
  | cons c cs ih =>
    intro hp l
    rcases hp c (List.mem_cons_self c cs) with ⟨hc1, hc2⟩
    rw [List.cons_append, fmt_plain_cons vd c hc1 hc2,
      ih (fun d hd => hp d (List.mem_cons_of_mem c hd)) l]
    rfl

/-- The guarded statement the spec describes for one Augment value in the
Bash dialect, written from the claim text for comparison: a guard that tests
for the value delimited by colons on both sides, then the conditional
mutation, appending or prepending per the flag. -/
def bashAugmentSpecStatement (name value : String) (appendValues : Bool) : String :=
  "[[ \":$" ++ String.mk [lbrace] ++ name ++ String.mk [rbrace] ++ ":\" != *\":" ++ value
    ++ ":\"* ]] && export " ++ name ++ "=\""
    ++ (if appendValues then value ++ ":$" ++ String.mk [lbrace] ++ name ++ String.mk [rbrace]
        else "$" ++ String.mk [lbrace] ++ name ++ String.mk [rbrace] ++ ":" ++ value)
    ++ "\""

/-- Applying the source template to one value produces exactly the guarded
statement described by the spec, for any brace-free variable name. -/
theorem formatValue_augmentStatement (name v : String) (app : Bool)
    (hname : ∀ c ∈ name.data, c ≠ lbrace ∧ c ≠ rbrace) :
    formatValue ("[[ \":" ++ doubledVarRef name ++ ":\" != *\":" ++ valueField
        ++ ":\"* ]] && "
        ++ ("export " ++ name ++ "=\""
          ++ (if app then valueField ++ ":" ++ doubledVarRef name
              else doubledVarRef name ++ ":" ++ valueField) ++ "\"")) v
      = bashAugmentSpecStatement name v app := by
  have hbf := fmt_braceFree_append v.data name.data hname
  have hA := fmt_braceFree_append v.data "[[ \":$".data (by decide)
  have hB := fmt_braceFree_append v.data ":\" != *\":".data (by decide)
  have hC := fmt_braceFree_append v.data ":\"* ]] && export ".data (by decide)
  have hD := fmt_braceFree_append v.data "=\"$".data (by decide)
  have hE := fmt_braceFree_append v.data ":".data (by decide)
  have hF : formatValueAux v.data "\"".data = "\"".data := rfl
  have hG := fmt_braceFree_append v.data ":\"".data (by decide)
  have hH := fmt_braceFree_append v.data "=\"".data (by decide)
  have hI := fmt_braceFree_append v.data ":$".data (by decide)
  have hJ := fmt_braceFree_append v.data "$".data (by decide)
  simp only [String.data_append, List.append_assoc, List.cons_append,
    List.nil_append] at hA hB hC hD hE hF hG hH hI hJ
  apply String.ext
  cases app with
  | false =>
    simp [formatValue, bashAugmentSpecStatement, doubledVarRef, valueField,
      String.data_append, List.append_assoc, fmt_open, fmt_close, fmt_field,
      fmt_nil, hbf, hA, hB, hC, hD, hE, hF, hG]
  | true =>
    simp [formatValue, bashAugmentSpecStatement, doubledVarRef, valueField,
      String.data_append, List.append_assoc, fmt_open, fmt_close, fmt_field,
      fmt_nil, hbf, hA, hB, hC, hD, hE, hF, hG, hH, hI, hJ]

/-- C8: rendering Augment of PATH with value /tools/bin and default flags in
the Bash dialect produces the guarded statement from the spec scenario; in
general, for every brace-free variable name, each enumerated value produces
exactly one guarded statement testing for the value delimited by colons on
both sides before mutating the variable, the statements joined by newlines. -/
theorem claimC8 :
    (BashCommandVisitor.OnAugment "PATH" ["/tools/bin"] false
      = "[[ \":$\x7bPATH\x7d:\" != *\":/tools/bin:\"* ]] && export PATH=\"$\x7bPATH\x7d:/tools/bin\"\n") ∧
    ∀ name : String, (∀ c ∈ name.data, c ≠ lbrace ∧ c ≠ rbrace) →
      ∀ (values : List String) (appendValues : Bool),
        BashCommandVisitor.OnAugment name values appendValues
          = String.intercalate "\n"
              (values.map fun v => bashAugmentSpecStatement name v appendValues) ++ "\n" := by
  have general : ∀ name : String, (∀ c ∈ name.data, c ≠ lbrace ∧ c ≠ rbrace) →
      ∀ (values : List String) (appendValues : Bool),
        BashCommandVisitor.OnAugment name values appendValues
          = String.intercalate "\n"
              (values.map fun v => bashAugmentSpecStatement name v appendValues) ++ "\n" := by
    intro name hname values app
    simp only [BashCommandVisitor.OnAugment]
    congr 2
    exact List.map_congr_left fun v _ => formatValue_augmentStatement name v app hname
  refine ⟨?_, general⟩
  rw [general "PATH" (by decide) ["/tools/bin"] false]
  decide

/-- Witness for C8 with the concrete name PATH and two values in append
mode. -/
theorem claimC8_witness :
    BashCommandVisitor.OnAugment "PATH" ["/a", "/b"] true
      = String.intercalate "\n"
          (["/a", "/b"].map fun v => bashAugmentSpecStatement "PATH" v true) ++ "\n" :=
  claimC8.2 "PATH" (by decide) ["/a", "/b"] true

/-- With a version filter supplied, the version level yields exactly one
branch or raises. -/
theorem GenerateVersionedDirs_filter_cases (tn : String) (w : Dir) (f : VersionFilter) :
    (∃ m, GenerateVersionedDirs tn w (some f) = Except.error m) ∨
    (∃ x, GenerateVersionedDirs tn w (some f) = Except.ok [x]) := by
  cases hinfos : versionedInfos w with
  | nil =>
    right
    exact ⟨(w, none), by simp [GenerateVersionedDirs, hinfos]⟩
  | cons i0 irest =>
    cases f with
    | latest =>
      cases hl : lookupLast ((sortVersionedDesc (i0 :: irest)).head?.getD i0).1
          (sortVersionedDesc (i0 :: irest)) with
      | some d =>
        right
        exact ⟨(d, some ((sortVersionedDesc (i0 :: irest)).head?.getD i0).1),
          by simp [GenerateVersionedDirs, hinfos, hl]⟩
      | none =>
        left
        exact ⟨versionNotFoundMessage tn ((sortVersionedDesc (i0 :: irest)).head?.getD i0).1 w,
          by simp [GenerateVersionedDirs, hinfos, hl]⟩
    | exact v =>
      cases hl : lookupLast v (sortVersionedDesc (i0 :: irest)) with
      | some d =>
        right
        exact ⟨(d, some v), by simp [GenerateVersionedDirs, hinfos, hl]⟩
      | none =>
        left
        exact ⟨versionNotFoundMessage tn v w, by simp [GenerateVersionedDirs, hinfos, hl]⟩

/-- With an OS filter supplied, the OS level yields exactly one branch or
raises. -/
theorem GenerateOperatingSystemDirs_filter_cases (tn : String) (w : Dir)
    (f : OperatingSystemType) (g : Bool) :
    (∃ m, GenerateOperatingSystemDirs tn w (some f) g = Except.error m) ∨
    (∃ x, GenerateOperatingSystemDirs tn w (some f) g = Except.ok [x]) := by
  cases hinfos : osInfos w with
  | nil =>
    right
    exact ⟨(w, none), by simp [GenerateOperatingSystemDirs, hinfos]⟩
  | cons i0 irest =>
    cases hl : lookupLast (osName f) (i0 :: irest) with
    | some info =>
      right
      exact ⟨(info.1, some info.2), by simp [GenerateOperatingSystemDirs, hinfos, hl]⟩
    | none =>
      cases g with
      | false =>
        left
        exact ⟨noDirectoryFoundMessage (osName f) tn w,
          by simp [GenerateOperatingSystemDirs, hinfos, hl]⟩
      | true =>
        cases hg : lookupLast "Generic" (i0 :: irest) with
        | some info =>
          right
          exact ⟨(info.1, some info.2),
            by simp [GenerateOperatingSystemDirs, hinfos, hl, hg]⟩
        | none =>
          left
          exact ⟨noDirectoryFoundMessage (osName f) tn w,
            by simp [GenerateOperatingSystemDirs, hinfos, hl, hg]⟩

/-- With an architecture filter supplied, the architecture level yields
exactly one branch or raises. -/
theorem GenerateArchitectureDirs_filter_cases (tn : String) (w : Dir)
    (f : ArchitectureType) (g : Bool) :
    (∃ m, GenerateArchitectureDirs tn w (some f) g = Except.error m) ∨
    (∃ x, GenerateArchitectureDirs tn w (some f) g = Except.ok [x]) := by
  cases hinfos : archInfos w with
  | nil =>
    right
    exact ⟨(w, none), by simp [GenerateArchitectureDirs, hinfos]⟩
  | cons i0 irest =>
    cases hl : lookupLast (archName f) (i0 :: irest) with
    | some info =>
      right
      exact ⟨(info.1, some info.2), by simp [GenerateArchitectureDirs, hinfos, hl]⟩
    | none =>
      cases g with
      | false =>
        left
        exact ⟨noDirectoryFoundMessage (archName f) tn w,
          by simp [GenerateArchitectureDirs, hinfos, hl]⟩
      | true =>
        cases hg : lookupLast "Generic" (i0 :: irest) with
        | some info =>
          right
          exact ⟨(info.1, some info.2),
            by simp [GenerateArchitectureDirs, hinfos, hl, hg]⟩
        | none =>
          left
          exact ⟨noDirectoryFoundMessage (archName f) tn w,
            by simp [GenerateArchitectureDirs, hinfos, hl, hg]⟩

/-- With all three filters supplied, GenerateToolInfos raises or yields
exactly one ToolInfo. -/
theorem GenerateToolInfos_filter_cases (d : Dir) (vf : VersionFilter)
    (osf : OperatingSystemType) (af : ArchitectureType) (g1 g2 : Bool) :
    (∃ m, GenerateToolInfos d (some vf) (some osf) (some af) g1 g2 = Except.error m) ∨
    (∃ i, GenerateToolInfos d (some vf) (some osf) (some af) g1 g2 = Except.ok [i]) := by
  rcases GenerateVersionedDirs_filter_cases d.name d vf with ⟨m, hm⟩ | ⟨x, hx⟩
  · left
    exact ⟨m, by simp [GenerateToolInfos, hm]⟩
  · rcases GenerateOperatingSystemDirs_filter_cases d.name x.1 osf g1 with ⟨m, hm⟩ | ⟨y, hy⟩
    · left
      exact ⟨m, by simp [GenerateToolInfos, hx, flatMapExcept, hm]⟩
    · rcases GenerateArchitectureDirs_filter_cases d.name y.1 af g2 with ⟨m, hm⟩ | ⟨z, hz⟩
      · left
        exact ⟨m, by simp [GenerateToolInfos, hx, flatMapExcept, hy, hm]⟩
      · right
        have hone : GenerateToolInfos d (some vf) (some osf) (some af) g1 g2
            = Except.ok [ToolInfo.mk d.name x.2 y.2 z.2 d.path z.1.path
                (if hasBinSubdir z.1 then z.1.path ++ ["bin"] else z.1.path)] := by
          simp [GenerateToolInfos, hx, flatMapExcept, hy, hz]
        exact ⟨_, hone⟩

/-- C6: with a version filter and concrete OS and architecture filters all
supplied, GenerateToolInfos yields exactly one ToolInfo or raises ValueError,
never zero and never more than one; consequently the batch caller
GetAllToolInfos never hits its exactly-one assertion (the only fatal branch
of the model) and its zero-results error branch is unreachable. -/
theorem claimC6 (toolDir : Dir) (vf : VersionFilter) (osf : OperatingSystemType)
    (af : ArchitectureType) (g1 g2 : Bool) :
    ((∃ m, GenerateToolInfos toolDir (some vf) (some osf) (some af) g1 g2 = Except.error m) ∨
     (∃ i, GenerateToolInfos toolDir (some vf) (some osf) (some af) g1 g2 = Except.ok [i])) ∧
    ∀ (toolsPath includeTools excludeTools : List String)
      (toolVersions : List (String × SemVer)) (entries : List FSEntry),
      ∃ r, GetAllToolInfosAux toolsPath includeTools excludeTools toolVersions osf af g1 g2
        entries = Except.ok r := by
  refine ⟨GenerateToolInfos_filter_cases toolDir vf osf af g1 g2, ?_⟩
  intro toolsPath inc exc tv entries
  induction entries with
  | nil => exact ⟨([], []), rfl⟩
  | cons e rest ih =>
    rcases ih with ⟨⟨rs, es⟩, hr⟩
    cases e with
    | file fn =>
      exact ⟨(rs, es), by simp only [GetAllToolInfosAux]; exact hr⟩
    | dir n cs =>
      cases hexc : exc.contains n with
      | true =>
        refine ⟨(rs, es), ?_⟩
        simp only [GetAllToolInfosAux]
        rw [if_pos hexc]
        exact hr
      | false =>
        have hexc' : ¬(exc.contains n = true) := fun h => Bool.noConfusion (h.symm.trans hexc)
        cases hinc : (!inc.isEmpty && !inc.contains n) with
        | true =>
          refine ⟨(rs, es), ?_⟩
          simp only [GetAllToolInfosAux]
          rw [if_neg hexc', if_pos hinc]
          exact hr
        | false =>
          have hinc' : ¬((!inc.isEmpty && !inc.contains n) = true) := fun h => Bool.noConfusion (h.symm.trans hinc)
          cases hvl : lookupLast n tv with
          | some v =>
            rcases GenerateToolInfos_filter_cases ⟨toolsPath ++ [n], cs⟩
                (VersionFilter.exact v) osf af g1 g2 with ⟨m, hm⟩ | ⟨i, hi⟩
            · refine ⟨(rs, m :: es), ?_⟩
              simp only [GetAllToolInfosAux]
              rw [if_neg hexc', if_neg hinc']
              simp only [hvl]
              rw [hm, hr]
            · refine ⟨(i :: rs, es), ?_⟩
              simp only [GetAllToolInfosAux]
              rw [if_neg hexc', if_neg hinc']
              simp only [hvl]
              rw [hi, hr]
          | none =>
            rcases GenerateToolInfos_filter_cases ⟨toolsPath ++ [n], cs⟩
                VersionFilter.latest osf af g1 g2 with ⟨m, hm⟩ | ⟨i, hi⟩
            · refine ⟨(rs, m :: es), ?_⟩
              simp only [GetAllToolInfosAux]
              rw [if_neg hexc', if_neg hinc']
              simp only [hvl]
              rw [hm, hr]
            · refine ⟨(i :: rs, es), ?_⟩
              simp only [GetAllToolInfosAux]
              rw [if_neg hexc', if_neg hinc']
              simp only [hvl]
              rw [hi, hr]

/-- C5: an explicitly requested version with no matching directory makes the
version level raise a ValueError whose message contains the literal text
naming the requested version, together with the tool name and the searched
directory; in the batch caller the failing tool contributes no configuration,
the message is recorded, and the remaining sibling entries are still
processed. -/
theorem claimC5 :
    (∀ (tn : String) (w : Dir) (v : SemVer),
      versionedInfos w ≠ [] →
      lookupLast v (sortVersionedDesc (versionedInfos w)) = none →
      ∃ m, GenerateVersionedDirs tn w (some (VersionFilter.exact v)) = Except.error m ∧
        (∃ p q, m = p ++ ("No directory found for version \x27" ++ verToString v ++ "\x27") ++ q) ∧
        (∃ p q, m = p ++ tn ++ q) ∧
        (∃ p q, m = p ++ pathToString w.path ++ q)) ∧
    (∀ (toolsPath includeTools excludeTools : List String) (tv : List (String × SemVer))
       (osf : OperatingSystemType) (af : ArchitectureType) (g1 g2 : Bool)
       (toolName : String) (children rest : List FSEntry)
       (m : String) (rs : List ToolInfo) (es : List String),
      excludeTools.contains toolName = false →
      (!includeTools.isEmpty && !includeTools.contains toolName) = false →
      GenerateToolInfos ⟨toolsPath ++ [toolName], children⟩
        (some (match lookupLast toolName tv with
          | some v => VersionFilter.exact v
          | none => VersionFilter.latest)) (some osf) (some af) g1 g2 = Except.error m →
      GetAllToolInfosAux toolsPath includeTools excludeTools tv osf af g1 g2 rest
        = Except.ok (rs, es) →
      GetAllToolInfosAux toolsPath includeTools excludeTools tv osf af g1 g2
        (FSEntry.dir toolName children :: rest) = Except.ok (rs, m :: es)) := by
  constructor
  · intro tn w v hne hmiss
    cases hinfos : versionedInfos w with
    | nil => exact absurd hinfos hne
    | cons i0 irest =>
      rw [hinfos] at hmiss
      refine ⟨versionNotFoundMessage tn v w,
        by simp [GenerateVersionedDirs, hinfos, hmiss], ?_, ?_, ?_⟩
      · refine ⟨"", " for the tool \x27" ++ tn ++ "\x27 in \x27"
          ++ pathToString w.path ++ "\x27.", ?_⟩
        apply String.ext
        simp [versionNotFoundMessage, String.data_append, List.append_assoc]
      · refine ⟨"No directory found for version \x27" ++ verToString v
          ++ "\x27 for the tool \x27", "\x27 in \x27" ++ pathToString w.path ++ "\x27.", ?_⟩
        apply String.ext
        simp [versionNotFoundMessage, String.data_append, List.append_assoc]
      · refine ⟨"No directory found for version \x27" ++ verToString v
          ++ "\x27 for the tool \x27" ++ tn ++ "\x27 in \x27", "\x27.", ?_⟩
        apply String.ext
        simp [versionNotFoundMessage, String.data_append, List.append_assoc]
  · intro toolsPath inc exc tv osf af g1 g2 toolName children rest m rs es hexc hinc hgti hrest
    simp only [GetAllToolInfosAux]
    rw [if_neg (fun h => Bool.noConfusion (h.symm.trans hexc)),
      if_neg (fun h => Bool.noConfusion (h.symm.trans hinc)), hgti, hrest]

/-- Witness for C5: requesting version 3.0.0 for a tool that only has 1.0.0
and 2.0.0 directories raises with the literal message and, in the batch
caller, contributes nothing while the sibling ToolB still resolves. -/
theorem claimC5_witness :
    (∃ m, GenerateVersionedDirs "ToolA"
        ⟨["Tools", "ToolA"], [FSEntry.dir "1.0.0" [], FSEntry.dir "2.0.0" []]⟩
        (some (VersionFilter.exact ⟨3, 0, 0⟩)) = Except.error m ∧
      (∃ p q, m = p ++ ("No directory found for version \x27" ++ verToString ⟨3, 0, 0⟩
        ++ "\x27") ++ q) ∧
      (∃ p q, m = p ++ "ToolA" ++ q) ∧
      (∃ p q, m = p ++ pathToString ["Tools", "ToolA"] ++ q)) ∧
    GetAllToolInfosAux ["Tools"] [] [] [("ToolA", ⟨3, 0, 0⟩)] OperatingSystemType.Linux
      ArchitectureType.x64 true true
      [FSEntry.dir "ToolA" [FSEntry.dir "1.0.0" [], FSEntry.dir "2.0.0" []],
        FSEntry.dir "ToolB" []]
      = Except.ok
          ([ToolInfo.mk "ToolB" none none none ["Tools", "ToolB"] ["Tools", "ToolB"]
              ["Tools", "ToolB"]],
            ["No directory found for version \x273.0.0\x27 for the tool \x27ToolA\x27 in \x27Tools/ToolA\x27."]) := by
  constructor
  · exact claimC5.1 "ToolA"
      ⟨["Tools", "ToolA"], [FSEntry.dir "1.0.0" [], FSEntry.dir "2.0.0" []]⟩ ⟨3, 0, 0⟩
      (fun h => absurd (congrArg List.length h) (by decide)) rfl
  · exact claimC5.2 ["Tools"] [] [] [("ToolA", ⟨3, 0, 0⟩)] OperatingSystemType.Linux
      ArchitectureType.x64 true true "ToolA"
      [FSEntry.dir "1.0.0" [], FSEntry.dir "2.0.0" []] [FSEntry.dir "ToolB" []]
      "No directory found for version \x273.0.0\x27 for the tool \x27ToolA\x27 in \x27Tools/ToolA\x27."
      [ToolInfo.mk "ToolB" none none none ["Tools", "ToolB"] ["Tools", "ToolB"]
        ["Tools", "ToolB"]]
      [] rfl rfl rfl rfl

/-- C1: on a tool directory with at least one version-coercible subdirectory,
the latest filter selects a directory carrying the maximum version under the
semantic-version order, no filter yields every coerced version directory in
descending version order, and a directory named v2.3.4 coerces identically
to one named 2.3.4. -/
theorem claimC1 (tn : String) (w : Dir) :
    (versionedInfos w ≠ [] →
      (∃ d v, GenerateVersionedDirs tn w (some VersionFilter.latest)
          = Except.ok [(d, some v)] ∧
        (v, d) ∈ versionedInfos w ∧ ∀ p ∈ versionedInfos w, verLe p.1 v = true) ∧
      (∃ vl, GenerateVersionedDirs tn w none
          = Except.ok (vl.map fun p => (p.2, some p.1)) ∧
        List.Perm vl (versionedInfos w) ∧
        vl.Pairwise fun a b => verLe b.1 a.1 = true)) ∧
    coerceDirName "v2.3.4" = coerceDirName "2.3.4" ∧
    coerceDirName "v2.3.4" = some ⟨2, 3, 4⟩ := by
  refine ⟨?_, by decide, by decide⟩
  intro hne
  cases hinfos : versionedInfos w with
  | nil => exact absurd hinfos hne
  | cons i0 irest =>
    have hperm := sortVersionedDesc_perm (i0 :: irest)
    have hpw := sortVersionedDesc_pairwise (i0 :: irest)
    constructor
    · obtain ⟨s0, ss, hs⟩ : ∃ s0 ss, sortVersionedDesc (i0 :: irest) = s0 :: ss := by
        cases hsv : sortVersionedDesc (i0 :: irest) with
        | nil =>
          have hlen := hperm.length_eq
          rw [hsv] at hlen
          simp at hlen
        | cons a as => exact ⟨a, as, rfl⟩
      rw [hs] at hperm hpw
      obtain ⟨d, hd⟩ := lookupLast_cons_self s0 ss
      refine ⟨d, s0.1, ?_, ?_, ?_⟩
      · simp only [GenerateVersionedDirs, hinfos, hs, List.headD_cons, hd]
      · exact hperm.mem_iff.mp (lookupLast_mem hd)
      · intro p hp
        rcases List.mem_cons.mp (hperm.mem_iff.mpr hp) with rfl | hp'
        · exact verLe_refl _
        · exact (List.pairwise_cons.mp hpw).1 p hp'
    · refine ⟨sortVersionedDesc (i0 :: irest), ?_, ?_, ?_⟩
      · simp only [GenerateVersionedDirs, hinfos]
      · exact hperm
      · exact hpw

/-- Witness for C1 at a tool directory holding the version directories
v2.3.4 and 1.0.0. -/
theorem claimC1_witness :
    (∃ d v, GenerateVersionedDirs "Tool4"
        ⟨["Tools", "Tool4"], [FSEntry.dir "v2.3.4" [], FSEntry.dir "1.0.0" []]⟩
        (some VersionFilter.latest) = Except.ok [(d, some v)] ∧
      (v, d) ∈ versionedInfos
        ⟨["Tools", "Tool4"], [FSEntry.dir "v2.3.4" [], FSEntry.dir "1.0.0" []]⟩ ∧
      ∀ p ∈ versionedInfos
        ⟨["Tools", "Tool4"], [FSEntry.dir "v2.3.4" [], FSEntry.dir "1.0.0" []]⟩,
        verLe p.1 v = true) ∧
    (∃ vl, GenerateVersionedDirs "Tool4"
        ⟨["Tools", "Tool4"], [FSEntry.dir "v2.3.4" [], FSEntry.dir "1.0.0" []]⟩ none
        = Except.ok (vl.map fun p => (p.2, some p.1)) ∧
      List.Perm vl (versionedInfos
        ⟨["Tools", "Tool4"], [FSEntry.dir "v2.3.4" [], FSEntry.dir "1.0.0" []]⟩) ∧
      vl.Pairwise fun a b => verLe b.1 a.1 = true) :=
  (claimC1 "Tool4"
    ⟨["Tools", "Tool4"], [FSEntry.dir "v2.3.4" [], FSEntry.dir "1.0.0" []]⟩).1
    (fun h => absurd (congrArg List.length h) (by decide))

/-- Every version-info entry lives one level below the working directory. -/
theorem versionedInfos_path {w : Dir} {p : SemVer × Dir} (h : p ∈ versionedInfos w) :
    ∃ n, p.2.path = w.path ++ [n] := by
  rcases List.mem_filterMap.mp h with ⟨c, _, hc⟩
  rcases Option.map_eq_some'.mp hc with ⟨v, _, heq⟩
  exact ⟨c.1, by rw [← heq]⟩

/-- Every OS-info entry lives one level below the working directory. -/
theorem osInfos_path {w : Dir} {x : String × Dir × OSValue} (h : x ∈ osInfos w) :
    ∃ n, x.2.1.path = w.path ++ [n] := by
  rcases List.mem_filterMap.mp h with ⟨c, _, hc⟩
  rcases Option.map_eq_some'.mp hc with ⟨t, _, heq⟩
  exact ⟨c.1, by rw [← heq]⟩

/-- Every architecture-info entry lives one level below the working
directory. -/
theorem archInfos_path {w : Dir} {x : String × Dir × ArchValue} (h : x ∈ archInfos w) :
    ∃ n, x.2.1.path = w.path ++ [n] := by
  rcases List.mem_filterMap.mp h with ⟨c, _, hc⟩
  rcases Option.map_eq_some'.mp hc with ⟨t, _, heq⟩
  exact ⟨c.1, by rw [← heq]⟩

/-- Directories produced by the version level extend the working directory
path. -/
theorem GenerateVersionedDirs_extends {tn : String} {w : Dir} {f : Option VersionFilter}
    {l : List (Dir × Option SemVer)} (h : GenerateVersionedDirs tn w f = Except.ok l) :
    ∀ p ∈ l, ∃ t, p.1.path = w.path ++ t := by
  intro p hp
  cases hinfos : versionedInfos w with
  | nil =>
    have hgvd : GenerateVersionedDirs tn w f = Except.ok [(w, none)] := by
      simp [GenerateVersionedDirs, hinfos]
    rw [hgvd] at h
    simp only [Except.ok.injEq] at h
    subst h
    rcases List.mem_singleton.mp hp with rfl
    exact ⟨[], by simp⟩
  | cons i0 irest =>
    have hfromSorted : ∀ s ∈ sortVersionedDesc (i0 :: irest), ∃ n, s.2.path = w.path ++ [n] := by
      intro s hs
      have hsmem : s ∈ versionedInfos w := by
        rw [hinfos]
        exact (sortVersionedDesc_perm (i0 :: irest)).mem_iff.mp hs
      exact versionedInfos_path hsmem
    cases f with
    | none =>
      have hgvd : GenerateVersionedDirs tn w none
          = Except.ok ((sortVersionedDesc (i0 :: irest)).map fun s => (s.2, some s.1)) := by
        simp [GenerateVersionedDirs, hinfos]
      rw [hgvd] at h
      simp only [Except.ok.injEq] at h
      subst h
      rcases List.mem_map.mp hp with ⟨s, hs, rfl⟩
      rcases hfromSorted s hs with ⟨n, hn⟩
      exact ⟨[n], hn⟩
    | some vf =>
      cases vf with
      | exact v =>
        cases hl : lookupLast v (sortVersionedDesc (i0 :: irest)) with
        | some d =>
          have hgvd : GenerateVersionedDirs tn w (some (VersionFilter.exact v))
              = Except.ok [(d, some v)] := by
            simp [GenerateVersionedDirs, hinfos, hl]
          rw [hgvd] at h
          simp only [Except.ok.injEq] at h
          subst h
          rcases List.mem_singleton.mp hp with rfl
          rcases hfromSorted (v, d) (lookupLast_mem hl) with ⟨n, hn⟩
          exact ⟨[n], hn⟩
        | none =>
          have hgvd : GenerateVersionedDirs tn w (some (VersionFilter.exact v))
              = Except.error (versionNotFoundMessage tn v w) := by
            simp [GenerateVersionedDirs, hinfos, hl]
          rw [hgvd] at h
          simp at h
      | latest =>
        cases hl : lookupLast ((sortVersionedDesc (i0 :: irest)).head?.getD i0).1
            (sortVersionedDesc (i0 :: irest)) with
        | some d =>
          have hgvd : GenerateVersionedDirs tn w (some VersionFilter.latest)
              = Except.ok [(d, some ((sortVersionedDesc (i0 :: irest)).head?.getD i0).1)] := by
            simp [GenerateVersionedDirs, hinfos, hl]
          rw [hgvd] at h
          simp only [Except.ok.injEq] at h
          subst h
          rcases List.mem_singleton.mp hp with rfl
          rcases hfromSorted _ (lookupLast_mem hl) with ⟨n, hn⟩
          exact ⟨[n], hn⟩
        | none =>
          have hgvd : GenerateVersionedDirs tn w (some VersionFilter.latest)
              = Except.error (versionNotFoundMessage tn
                  ((sortVersionedDesc (i0 :: irest)).head?.getD i0).1 w) := by
            simp [GenerateVersionedDirs, hinfos, hl]
          rw [hgvd] at h
          simp at h

/-- Directories produced by the OS level extend the working directory path. -/
theorem GenerateOperatingSystemDirs_extends {tn : String} {w : Dir}
    {f : Option OperatingSystemType} {g : Bool} {l : List (Dir × Option OSValue)}
    (h : GenerateOperatingSystemDirs tn w f g = Except.ok l) :
    ∀ p ∈ l, ∃ t, p.1.path = w.path ++ t := by
  intro p hp
  cases hinfos : osInfos w with
  | nil =>
    have hgen : GenerateOperatingSystemDirs tn w f g = Except.ok [(w, none)] := by
      simp [GenerateOperatingSystemDirs, hinfos]
    rw [hgen] at h
    simp only [Except.ok.injEq] at h
    subst h
    rcases List.mem_singleton.mp hp with rfl
    exact ⟨[], by simp⟩
  | cons i0 irest =>
    have hfrom : ∀ x ∈ (i0 :: irest : List (String × Dir × OSValue)),
        ∃ n, x.2.1.path = w.path ++ [n] := by
      intro x hx
      exact osInfos_path (by rw [hinfos]; exact hx)
    cases f with
    | none =>
      have hgen : GenerateOperatingSystemDirs tn w none g
          = Except.ok ((i0 :: irest).map fun x => (x.2.1, some x.2.2)) := by
        simp [GenerateOperatingSystemDirs, hinfos]
      rw [hgen] at h
      simp only [Except.ok.injEq] at h
      subst h
      rcases List.mem_map.mp hp with ⟨x, hx, rfl⟩
      rcases hfrom x hx with ⟨n, hn⟩
      exact ⟨[n], hn⟩
    | some osk =>
      cases hl : lookupLast (osName osk) (i0 :: irest) with
      | some info =>
        have hgen : GenerateOperatingSystemDirs tn w (some osk) g
            = Except.ok [(info.1, some info.2)] := by
          simp [GenerateOperatingSystemDirs, hinfos, hl]
        rw [hgen] at h
        simp only [Except.ok.injEq] at h
        subst h
        rcases List.mem_singleton.mp hp with rfl
        rcases hfrom _ (lookupLast_mem hl) with ⟨n, hn⟩
        exact ⟨[n], hn⟩
      | none =>
        cases g with
        | false =>
          have hgen : GenerateOperatingSystemDirs tn w (some osk) false
              = Except.error (noDirectoryFoundMessage (osName osk) tn w) := by
            simp [GenerateOperatingSystemDirs, hinfos, hl]
          rw [hgen] at h
          simp at h
        | true =>
          cases hg : lookupLast "Generic" (i0 :: irest) with
          | some info =>
            have hgen : GenerateOperatingSystemDirs tn w (some osk) true
                = Except.ok [(info.1, some info.2)] := by
              simp [GenerateOperatingSystemDirs, hinfos, hl, hg]
            rw [hgen] at h
            simp only [Except.ok.injEq] at h
            subst h
            rcases List.mem_singleton.mp hp with rfl
            rcases hfrom _ (lookupLast_mem hg) with ⟨n, hn⟩
            exact ⟨[n], hn⟩
          | none =>
            have hgen : GenerateOperatingSystemDirs tn w (some osk) true
                = Except.error (noDirectoryFoundMessage (osName osk) tn w) := by
              simp [GenerateOperatingSystemDirs, hinfos, hl, hg]
            rw [hgen] at h
            simp at h

/-- Directories produced by the architecture level extend the working
directory path. -/
theorem GenerateArchitectureDirs_extends {tn : String} {w : Dir}
    {f : Option ArchitectureType} {g : Bool} {l : List (Dir × Option ArchValue)}
    (h : GenerateArchitectureDirs tn w f g = Except.ok l) :
    ∀ p ∈ l, ∃ t, p.1.path = w.path ++ t := by
  intro p hp
  cases hinfos : archInfos w with
  | nil =>
    have hgen : GenerateArchitectureDirs tn w f g = Except.ok [(w, none)] := by
      simp [GenerateArchitectureDirs, hinfos]
    rw [hgen] at h
    simp only [Except.ok.injEq] at h
    subst h
    rcases List.mem_singleton.mp hp with rfl
    exact ⟨[], by simp⟩
  | cons i0 irest =>
    have hfrom : ∀ x ∈ (i0 :: irest : List (String × Dir × ArchValue)),
        ∃ n, x.2.1.path = w.path ++ [n] := by
      intro x hx
      exact archInfos_path (by rw [hinfos]; exact hx)
    cases f with
    | none =>
      have hgen : GenerateArchitectureDirs tn w none g
          = Except.ok ((i0 :: irest).map fun x => (x.2.1, some x.2.2)) := by
        simp [GenerateArchitectureDirs, hinfos]
      rw [hgen] at h
      simp only [Except.ok.injEq] at h
      subst h
      rcases List.mem_map.mp hp with ⟨x, hx, rfl⟩
      rcases hfrom x hx with ⟨n, hn⟩
      exact ⟨[n], hn⟩
    | some ak =>
      cases hl : lookupLast (archName ak) (i0 :: irest) with
      | some info =>
        have hgen : GenerateArchitectureDirs tn w (some ak) g
            = Except.ok [(info.1, some info.2)] := by
          simp [GenerateArchitectureDirs, hinfos, hl]
        rw [hgen] at h
        simp only [Except.ok.injEq] at h
        subst h
        rcases List.mem_singleton.mp hp with rfl
        rcases hfrom _ (lookupLast_mem hl) with ⟨n, hn⟩
        exact ⟨[n], hn⟩
      | none =>
        cases g with
        | false =>
          have hgen : GenerateArchitectureDirs tn w (some ak) false
              = Except.error (noDirectoryFoundMessage (archName ak) tn w) := by
            simp [GenerateArchitectureDirs, hinfos, hl]
          rw [hgen] at h
          simp at h
        | true =>
          cases hg : lookupLast "Generic" (i0 :: irest) with
          | some info =>
            have hgen : GenerateArchitectureDirs tn w (some ak) true
                = Except.ok [(info.1, some info.2)] := by
              simp [GenerateArchitectureDirs, hinfos, hl, hg]
            rw [hgen] at h
            simp only [Except.ok.injEq] at h
            subst h
            rcases List.mem_singleton.mp hp with rfl
            rcases hfrom _ (lookupLast_mem hg) with ⟨n, hn⟩
            exact ⟨[n], hn⟩
          | none =>
            have hgen : GenerateArchitectureDirs tn w (some ak) true
                = Except.error (noDirectoryFoundMessage (archName ak) tn w) := by
              simp [GenerateArchitectureDirs, hinfos, hl, hg]
            rw [hgen] at h
            simp at h

/-- C2: every ToolInfo produced by resolution has binary_directory equal to
the versioned directory with bin appended exactly when that subdirectory
exists and equal to the versioned directory otherwise, and root_directory is
an ancestor of (or equal to) versioned_directory; a tool directory with no
version, OS or architecture subdirectories resolves with versioned_directory
equal to root_directory. -/
theorem claimC2 (toolDir : Dir) (vf : Option VersionFilter) (osf : Option OperatingSystemType)
    (af : Option ArchitectureType) (g1 g2 : Bool) :
    (∀ infos, GenerateToolInfos toolDir vf osf af g1 g2 = Except.ok infos →
      ∀ info ∈ infos,
        info.root_directory = toolDir.path ∧
        (∃ t, info.versioned_directory = info.root_directory ++ t) ∧
        (∃ d : Dir, d.path = info.versioned_directory ∧
          info.binary_directory
            = (if hasBinSubdir d then d.path ++ ["bin"] else d.path))) ∧
    (versionedInfos toolDir = [] → osInfos toolDir = [] → archInfos toolDir = [] →
      GenerateToolInfos toolDir vf osf af g1 g2
        = Except.ok [ToolInfo.mk toolDir.name none none none toolDir.path toolDir.path
            (if hasBinSubdir toolDir then toolDir.path ++ ["bin"] else toolDir.path)]) := by
  constructor
  · intro infos h info hmem
    rw [GenerateToolInfos] at h
    cases hgvd : GenerateVersionedDirs toolDir.name toolDir vf with
    | error e =>
      rw [hgvd] at h
      simp at h
    | ok vds =>
      rw [hgvd] at h
      obtain ⟨vd, hvd_mem, ys, hFvd, hinfo_ys⟩ := flatMapExcept_mem h info hmem
      cases hos : GenerateOperatingSystemDirs toolDir.name vd.1 osf g1 with
      | error e =>
        rw [hos] at hFvd
        simp at hFvd
      | ok osl =>
        rw [hos] at hFvd
        obtain ⟨od, hod_mem, zs, hGod, hinfo_zs⟩ := flatMapExcept_mem hFvd info hinfo_ys
        cases har : GenerateArchitectureDirs toolDir.name od.1 af g2 with
        | error e =>
          rw [har] at hGod
          simp at hGod
        | ok al =>
          rw [har] at hGod
          simp only [Except.ok.injEq] at hGod
          subst hGod
          rcases List.mem_map.mp hinfo_zs with ⟨ad, had_mem, rfl⟩
          refine ⟨rfl, ?_, ⟨ad.1, rfl, rfl⟩⟩
          rcases GenerateVersionedDirs_extends hgvd vd hvd_mem with ⟨t1, ht1⟩
          rcases GenerateOperatingSystemDirs_extends hos od hod_mem with ⟨t2, ht2⟩
          rcases GenerateArchitectureDirs_extends har ad had_mem with ⟨t3, ht3⟩
          refine ⟨t1 ++ (t2 ++ t3), ?_⟩
          show ad.1.path = toolDir.path ++ (t1 ++ (t2 ++ t3))
          rw [ht3, ht2, ht1, List.append_assoc, List.append_assoc]
  · intro h1 h2 h3
    simp [GenerateToolInfos, GenerateVersionedDirs, h1, flatMapExcept,
      GenerateOperatingSystemDirs, h2, GenerateArchitectureDirs, h3]

/-- Witness for C2 at a flat tool directory whose only child is a bin
subdirectory, resolved in single-configuration mode. -/
theorem claimC2_witness :
    GenerateToolInfos ⟨["Tools", "Tool2"], [FSEntry.dir "bin" []]⟩
      (some VersionFilter.latest) (some OperatingSystemType.Linux)
      (some ArchitectureType.x64) true true
      = Except.ok [ToolInfo.mk (Dir.name ⟨["Tools", "Tool2"], [FSEntry.dir "bin" []]⟩)
          none none none ["Tools", "Tool2"] ["Tools", "Tool2"]
          (if hasBinSubdir ⟨["Tools", "Tool2"], [FSEntry.dir "bin" []]⟩
            then ["Tools", "Tool2"] ++ ["bin"] else ["Tools", "Tool2"])] ∧
    (∃ t, (["Tools", "Tool2"] : List String) = ["Tools", "Tool2"] ++ t) := by
  have h := (claimC2 ⟨["Tools", "Tool2"], [FSEntry.dir "bin" []]⟩
    (some VersionFilter.latest) (some OperatingSystemType.Linux)
    (some ArchitectureType.x64) true true).2 rfl rfl rfl
  refine ⟨h, ?_⟩
  have h2 := (claimC2 ⟨["Tools", "Tool2"], [FSEntry.dir "bin" []]⟩
    (some VersionFilter.latest) (some OperatingSystemType.Linux)
    (some ArchitectureType.x64) true true).1 _ h _ (List.mem_singleton_self _)
  exact h2.2.1

end ToolsDirectory
